import Mathlib

/-!
Verification of the incremental artifact generation engine of
`packages/@contentlayer/core/src/generation/generate-dotpkg.ts`.

The development shallowly embeds the pure planning logic (which files are
generated, with what path, content and fingerprint) and the selective-write
logic (the written-files cache) of that module.  File paths are modelled as
lists of path segments (the arguments of `path.join`), the filesystem write
primitive as a boolean outcome, and JavaScript objects as ordered
association lists.
-/

/-- JSON values, as produced by the content source: JavaScript objects are
ordered field lists, arrays are ordered element lists.  Numbers are modelled
as integers (the documents handled by the claims carry strings). -/
inductive Json where
  | null : Json
  | jbool (b : Bool) : Json
  | num (n : Int) : Json
  | str (s : String) : Json
  | arr (elems : List Json) : Json
  | obj (fields : List (String × Json)) : Json

/-- A run of `n` spaces, the indentation unit of `JSON.stringify(v, null, 2)`. -/
def jsonIndent (n : Nat) : String := String.mk (List.replicate n ' ')

/-- Lowercase hex digit, as used by `JSON.stringify` for control characters. -/
def hexDigit (n : Nat) : Char :=
  if n < 10 then Char.ofNat (48 + n) else Char.ofNat (87 + n)

/-- Escaping of one character inside a JSON string literal, following
`JSON.stringify`: quote, backslash, the named control escapes, and a
`\u00XX` escape for the remaining control characters. -/
def escapeJsonChar (c : Char) : String :=
  if c = '"' then "\\\""
  else if c = '\\' then "\\\\"
  else if c = '\n' then "\\n"
  else if c = '\r' then "\\r"
  else if c = '\t' then "\\t"
  else if c = Char.ofNat 8 then "\\b"
  else if c = Char.ofNat 12 then "\\f"
  else if c.toNat < 32 then
    "\\u00" ++ String.mk [hexDigit (c.toNat / 16), hexDigit (c.toNat % 16)]
  else String.singleton c

/-- A JSON string literal: the escaped characters between double quotes. -/
def quoteJsonString (s : String) : String :=
  "\"" ++ String.join (s.data.map escapeJsonChar) ++ "\""

mutual

/-- `JSON.stringify(value, null, 2)` at nesting depth `d`: two-space
indentation, `": "` after keys, empty containers printed inline. -/
def jsonStringifyAt : Json → Nat → String
  | Json.null, _ => "null"
  | Json.jbool b, _ => if b then "true" else "false"
  | Json.num n, _ => toString n
  | Json.str s, _ => quoteJsonString s
  | Json.arr [], _ => "[]"
  | Json.arr (x :: xs), d =>
      "[\n" ++ String.intercalate ",\n" (jsonArrItems (x :: xs) (d + 1)) ++
        "\n" ++ jsonIndent (2 * d) ++ "]"
  | Json.obj [], _ => "\x7b\x7d"
  | Json.obj (kv :: kvs), d =>
      "\x7b\n" ++ String.intercalate ",\n" (jsonObjItems (kv :: kvs) (d + 1)) ++
        "\n" ++ jsonIndent (2 * d) ++ "\x7d"

/-- The indented lines of a serialized JSON array. -/
def jsonArrItems : List Json → Nat → List String
  | [], _ => []
  | x :: xs, d => (jsonIndent (2 * d) ++ jsonStringifyAt x d) :: jsonArrItems xs d

/-- The indented `"key": value` lines of a serialized JSON object. -/
def jsonObjItems : List (String × Json) → Nat → List String
  | [], _ => []
  | (k, v) :: kvs, d =>
      (jsonIndent (2 * d) ++ quoteJsonString k ++ ": " ++ jsonStringifyAt v d) ::
        jsonObjItems kvs d

end

/-- Top-level `JSON.stringify(value, null, 2)`. -/
def jsonStringify (v : Json) : String := jsonStringifyAt v 0

/-- A realized document: a JavaScript object, i.e. an ordered list of
fields.  The source accesses `document._id` and `document[typeFieldName]`,
both typed as strings. -/
abbrev Document := List (String × Json)

/-- Property access `document[key]` on the object. -/
def docField : Document → String → Option Json
  | [], _ => none
  | (k, v) :: rest, key => if k = key then some v else docField rest key

/-- Property access for a field the TypeScript types declare as a string
(`_id`, the discriminant field): yields the string value, or `""` when the
field is absent or not a string. -/
def docStr (d : Document) (key : String) : String :=
  match docField d key with
  | some (Json.str s) => s
  | _ => ""

/-- JavaScript strict equality `value === s` against a string `s`: true
exactly when the value is that string. -/
def jsonEqString (v : Option Json) (s : String) : Bool :=
  match v with
  | some (Json.str t) => t = s
  | _ => false

/-- One document type definition of the schema (`DocumentTypeDef`): its
unique name and the singleton-vs-collection flag. -/
structure DocumentTypeDef where
  name : String
  isSingleton : Bool
deriving DecidableEq, Repr

/-- The schema (`SchemaDef`): `documentTypeDefMap`, a mapping from type
name to type definition, in iteration order. -/
structure SchemaDef where
  documentTypeDefMap : List (String × DocumentTypeDef)

/-- One cache item of the document-store snapshot: the realized document
and its content fingerprint (`documentHash`). -/
structure CacheItem where
  document : Document
  documentHash : String

/-- The document-store snapshot (`DataCache.Cache`): `cacheItemsMap`, a
mapping from document identifier to cache item, in iteration order. -/
structure Cache where
  cacheItemsMap : List (String × CacheItem)

/-- `leftPadWithUnderscoreIfStartsWithNumber` on the character list: an
underscore is prefixed when the first character is a decimal digit
(the regex `/^[0-9]/`). -/
def leftPadChars : List Char → List Char
  | [] => []
  | c :: cs => if c.isDigit then '_' :: c :: cs else c :: cs

/-- `.replace(/\//g, '__')` on the character list: every `/` becomes two
underscores. -/
def escapeSlashes : List Char → List Char
  | [] => []
  | c :: cs => if c = '/' then '_' :: '_' :: escapeSlashes cs else c :: escapeSlashes cs

/-- `leftPadWithUnderscoreIfStartsWithNumber` of the source. -/
def leftPadWithUnderscoreIfStartsWithNumber (str : String) : String :=
  String.mk (leftPadChars str.data)

/-- `idToFileName`: underscore-prefix an identifier starting with a digit,
then replace every `/` with `__`. -/
def idToFileName (id : String) : String :=
  String.mk (escapeSlashes (leftPadChars id.data))

/-- Modelled from the spec: `lowercaseFirstChar` of `@contentlayer/utils`
(not under `src/`) lowercases the first character of a string. -/
def lowercaseFirstChar (s : String) : String :=
  match s.data with
  | [] => ""
  | c :: cs => String.mk (c.toLower :: cs)

/-- Modelled from the spec: `uppercaseFirstChar` of `@contentlayer/utils`
(not under `src/`) uppercases the first character of a string. -/
def uppercaseFirstChar (s : String) : String :=
  match s.data with
  | [] => ""
  | c :: cs => String.mk (c.toUpper :: cs)

/-- Whether the last character of a string is `s`. -/
def endsInS (s : String) : Bool :=
  match s.data.getLast? with
  | some c => c = 's'
  | none => false

/-- Model of `inflection.pluralize` (external library) for regular nouns:
append `s` unless the word already ends in `s`. -/
def pluralizeModel (s : String) : String :=
  if endsInS s then s else s ++ "s"

/-- Model of `inflection.singularize` (external library) for regular
nouns: drop a trailing `s`. -/
def singularizeModel (s : String) : String :=
  if endsInS s then String.mk s.data.dropLast else s

/-- Words of an identifier split at underscores. -/
def splitAtUnderscores : List Char → List (List Char)
  | [] => [[]]
  | c :: cs =>
      if c = '_' then [] :: splitAtUnderscores cs
      else
        match splitAtUnderscores cs with
        | w :: ws => (c :: w) :: ws
        | [] => [[c]]

/-- A capitalized word: first character uppercased, the rest lowercased. -/
def capitalizeWord : List Char → List Char
  | [] => []
  | c :: cs => c.toUpper :: cs.map Char.toLower

/-- Model of the external `camel-case` package as called by the source
(with `stripRegexp` keeping letters, digits and underscores): strip the
other characters, split into words at underscores, lowercase the first
word, capitalize the rest. -/
def camelCaseModel (s : String) : String :=
  let kept := s.data.filter (fun c => c.isAlphanum || c = '_')
  let words := (splitAtUnderscores kept).filter (fun w => !w.isEmpty)
  match words with
  | [] => ""
  | w :: ws =>
      String.mk (w.map Char.toLower) ++ String.join (ws.map (fun w => String.mk (capitalizeWord w)))

/-- `getDataVariableName`: a singleton type exports the lowercased
singularized type name; a collection type exports `all` followed by the
uppercased pluralized type name. -/
def getDataVariableName (docDef : DocumentTypeDef) : String :=
  if docDef.isSingleton then
    lowercaseFirstChar (singularizeModel docDef.name)
  else
    "all" ++ uppercaseFirstChar (pluralizeModel docDef.name)

/-- Modelled from the spec: `autogeneratedNote` of `./common.js` (not
under `src/`), the banner comment placed in every generated file. -/
def autogeneratedNote : String :=
  "NOTE This file is auto-generated by Contentlayer"

/-- `makeVariableName` inside `makeDataExportFile`: the escaped filename,
camel-cased. -/
def makeVariableName (id : String) : String :=
  camelCaseModel (idToFileName id)

/-- `makeDataExportFile`: the per-type barrel text.  A singleton type
re-exports its first document; with zero documents `documentIds[0]!` is
`undefined` and `idToFileName` throws, modelled as `none`.  A collection
type imports every member and exports the list of generated names, in the
order of `documentIds`. -/
def makeDataExportFile (docDef : DocumentTypeDef) (documentIds : List String) : Option String :=
  let dataVariableName := getDataVariableName docDef
  if docDef.isSingleton then
    match documentIds with
    | [] => none
    | documentId :: _ =>
        some ("// " ++ autogeneratedNote ++ "\nexport \x7b default as " ++ dataVariableName ++
          " \x7d from './" ++ docDef.name ++ "/" ++ idToFileName documentId ++ ".json'\n")
  else
    let docImports := String.intercalate "\n" (documentIds.map (fun id =>
      "import " ++ makeVariableName id ++ " from './" ++ docDef.name ++ "/" ++
        idToFileName id ++ ".json'"))
    some ("// " ++ autogeneratedNote ++ "\n\n" ++ docImports ++ "\n\nexport const " ++
      dataVariableName ++ " = [" ++
      String.intercalate ", " (documentIds.map makeVariableName) ++ "]\n")

/-- `makeIndexJs`: the aggregate `data/index.mjs` text. -/
def makeIndexJs (schemaDef : SchemaDef) : String :=
  let dataVariableNames :=
    (schemaDef.documentTypeDefMap.map Prod.snd).map (fun docDef => (docDef, getDataVariableName docDef))
  let constReexports := String.intercalate "\n" (dataVariableNames.map (fun p =>
    "export * from './" ++ p.2 ++ ".mjs'"))
  let constImportsForAllDocuments := String.intercalate "\n" (dataVariableNames.map (fun p =>
    "import \x7b " ++ p.2 ++ " \x7d from './" ++ p.2 ++ ".mjs'"))
  let allDocuments := String.intercalate ", " (dataVariableNames.map (fun p =>
    if p.1.isSingleton then p.2 else "..." ++ p.2))
  "// " ++ autogeneratedNote ++ "\n\nexport \x7b isType \x7d from 'contentlayer/client'\n\n" ++
    constReexports ++ "\n" ++ constImportsForAllDocuments ++
    "\n\nexport const allDocuments = [" ++ allDocuments ++ "]\n"

/-- `makeHelperTypes`: the static `types/index.mjs` text. -/
def makeHelperTypes : String :=
  "// " ++ autogeneratedNote ++ "\n\nexport \x7b isType \x7d from 'contentlayer/client'\n"

/-- `makeDataTypes`: the aggregate `data/index.d.ts` text. -/
def makeDataTypes (schemaDef : SchemaDef) : String :=
  let defs := schemaDef.documentTypeDefMap.map Prod.snd
  let dataConsts := String.intercalate "\n" (defs.map (fun docDef =>
    "export declare const " ++ getDataVariableName docDef ++ ": " ++ docDef.name ++
      (if docDef.isSingleton then "" else "[]")))
  let documentTypeNames := String.intercalate ", " (defs.map DocumentTypeDef.name)
  "// " ++ autogeneratedNote ++ "\n\nimport \x7b " ++ documentTypeNames ++
    ", DocumentTypes \x7d from '../types'\n\n" ++ dataConsts ++
    "\n\nexport declare const allDocuments: DocumentTypes[]\n\n"

/-- `makePackageJson`: `JSON.stringify` of the static manifest object. -/
def makePackageJson : String :=
  jsonStringify (Json.obj
    [("name", Json.str "dot-contentlayer"),
     ("description", Json.str "This package is auto-generated by Contentlayer"),
     ("version", Json.str "0.0.0"),
     ("exports", Json.obj
       [("./data", Json.obj [("import", Json.str "./data/index.mjs")]),
        ("./types", Json.obj [("import", Json.str "./types/index.mjs")])]),
     ("typesVersions", Json.obj
       [("*", Json.obj
         [("data", Json.arr [Json.str "./data"]),
          ("types", Json.arr [Json.str "./types"])])])])

/-- Modelled from the spec: `renderTypes` of `./generate-types.js` (not
under `src/`) renders the type-declaration stubs of `types/index.d.ts`
deterministically from the schema: one declaration per type, plus the
union of all defined types. -/
def renderTypes (schemaDef : SchemaDef) : String :=
  let defs := schemaDef.documentTypeDefMap.map Prod.snd
  "// " ++ autogeneratedNote ++ "\n\n" ++
    String.intercalate "\n" (defs.map (fun docDef =>
      "export type " ++ docDef.name ++ " = Record<string, any>")) ++
    "\n\nexport type DocumentTypes = " ++
    String.intercalate " | " (defs.map DocumentTypeDef.name) ++ "\n"

/-- The documents of the snapshot, in iteration order
(`Object.values(cache.cacheItemsMap).map((_) => _.document)`). -/
def allDocumentsOf (cache : Cache) : List Document :=
  (cache.cacheItemsMap.map Prod.snd).map CacheItem.document

/-- The identifiers feeding one barrel, from `writeFilesForCache_` line 148:
`allDocuments.filter((_) => _[typeNameField] === docDef.name).map((_) => _._id)`.
No sorting is applied: the documents keep snapshot iteration order. -/
def barrelDocumentIds (typeNameField : String) (allDocuments : List Document)
    (docDef : DocumentTypeDef) : List String :=
  (allDocuments.filter (fun d => jsonEqString (docField d typeNameField) docDef.name)).map
    (fun d => docStr d "_id")

/-- One planned artifact: output path (as `path.join` segments), textual
content, and the optional fingerprint (`documentHash`). -/
structure PlannedFile where
  filePath : List String
  content : String
  documentHash : Option String
deriving DecidableEq, Repr

/-- The per-type barrel plans (`dataBarrelFiles` of `writeFilesForCache_`):
each type yields `data/<variableName>.mjs` with `makeDataExportFile`
content and no fingerprint.  A failing `makeDataExportFile` (singleton with
zero documents) fails the whole plan, as the thrown exception does. -/
def dataBarrelFilePlans (targetPath : List String) (typeNameField : String)
    (allDocuments : List Document) : List DocumentTypeDef → Option (List PlannedFile)
  | [] => some []
  | docDef :: rest =>
      match makeDataExportFile docDef (barrelDocumentIds typeNameField allDocuments docDef),
        dataBarrelFilePlans targetPath typeNameField allDocuments rest with
      | some content, some files =>
          some (PlannedFile.mk (targetPath ++ ["data", getDataVariableName docDef ++ ".mjs"])
            content none :: files)
      | _, _ => none

/-- The per-document JSON plans (`dataJsonFiles` of `writeFilesForCache_`):
one file per cache item at `data/<discriminant value>/<escaped id>.json`,
with the pretty-printed document as content and the item's `documentHash`
as fingerprint. -/
def dataJsonFilePlans (targetPath : List String) (typeNameField : String)
    (items : List CacheItem) : List PlannedFile :=
  items.map (fun item =>
    PlannedFile.mk
      (targetPath ++ ["data", docStr item.document typeNameField,
        idToFileName (docStr item.document "_id") ++ ".json"])
      (jsonStringify (Json.obj item.document))
      (some item.documentHash))

/-- The pure planning portion of `writeFilesForCache_` (lines 139-175): the
ordered artifact set handed to the selective writer — manifest, type
declarations, helper re-export, aggregate declarations, aggregate index,
per-type barrels, then per-document JSON files.  `none` models the
exception thrown while building a barrel. -/
def writeFilesForCachePlan (schemaDef : SchemaDef) (targetPath : List String)
    (typeNameField : String) (cache : Cache) : Option (List PlannedFile) :=
  let allCacheItems := cache.cacheItemsMap.map Prod.snd
  let allDocuments := allDocumentsOf cache
  let documentDefs := schemaDef.documentTypeDefMap.map Prod.snd
  match dataBarrelFilePlans targetPath typeNameField allDocuments documentDefs with
  | none => none
  | some barrels =>
      some (PlannedFile.mk (targetPath ++ ["package.json"]) makePackageJson none ::
        PlannedFile.mk (targetPath ++ ["types", "index.d.ts"]) (renderTypes schemaDef) none ::
        PlannedFile.mk (targetPath ++ ["types", "index.mjs"]) makeHelperTypes none ::
        PlannedFile.mk (targetPath ++ ["data", "index.d.ts"]) (makeDataTypes schemaDef) none ::
        PlannedFile.mk (targetPath ++ ["data", "index.mjs"]) (makeIndexJs schemaDef) none ::
        (barrels ++ dataJsonFilePlans targetPath typeNameField allCacheItems))

/-- The write-cache: output path mapped to the fingerprint last written
there (`WrittenFilesCache = Record<FilePath, DocumentHash>`). -/
abbrev WrittenFilesCache := List (List String × String)

/-- Record lookup `writtenFilesCache[filePath]`. -/
def lookupCache : WrittenFilesCache → List String → Option String
  | [], _ => none
  | (p, h) :: rest, q => if p = q then some h else lookupCache rest q

/-- Record update `writtenFilesCache[filePath] = documentHash`. -/
def insertCache : WrittenFilesCache → List String → String → WrittenFilesCache
  | [], p, h => [(p, h)]
  | (q, h') :: rest, p, h =>
      if q = p then (q, h) :: rest else (q, h') :: insertCache rest p h

/-- The outcome of one `writeFileWithWrittenFilesCache` call: the write was
skipped, performed successfully, or attempted and failed. -/
inductive WriteOutcome where
  | skipped : WriteOutcome
  | wrote : WriteOutcome
  | failed : WriteOutcome
deriving DecidableEq, Repr

/-- `writeFileWithWrittenFilesCache`: skip when a fingerprint was supplied
(`documentHash !== undefined`) and the cache holds that fingerprint for the
path; otherwise attempt the write (`writeSucceeds` models the filesystem
primitive), and after a successful write record the fingerprint only when
it is truthy (`if (documentHash)` — the empty string is falsy). -/
def writeFileWithWrittenFilesCache (writtenFilesCache : WrittenFilesCache)
    (f : PlannedFile) (writeSucceeds : Bool) : WriteOutcome × WrittenFilesCache :=
  match f.documentHash with
  | some h =>
      if lookupCache writtenFilesCache f.filePath = some h then
        (WriteOutcome.skipped, writtenFilesCache)
      else if writeSucceeds then
        if h = "" then (WriteOutcome.wrote, writtenFilesCache)
        else (WriteOutcome.wrote, insertCache writtenFilesCache f.filePath h)
      else (WriteOutcome.failed, writtenFilesCache)
  | none =>
      if writeSucceeds then (WriteOutcome.wrote, writtenFilesCache)
      else (WriteOutcome.failed, writtenFilesCache)

/-- The selective writer over a whole plan, all filesystem writes
succeeding: the list of performed writes (path and content, in plan order)
and the final write-cache. -/
def runWritesAll (cache : WrittenFilesCache) :
    List PlannedFile → List (List String × String) × WrittenFilesCache
  | [] => ([], cache)
  | f :: fs =>
      match writeFileWithWrittenFilesCache cache f true with
      | (WriteOutcome.wrote, cache') =>
          let rest := runWritesAll cache' fs
          ((f.filePath, f.content) :: rest.1, rest.2)
      | (_, cache') => runWritesAll cache' fs

/-- The number of performed writes that touched path `p`. -/
def countWrites (writes : List (List String × String)) (p : List String) : Nat :=
  (writes.filter (fun w => w.1 = p)).length

/-- The summary reported by a successful pass. -/
structure GenerateInfo where
  documentCount : Nat
deriving DecidableEq, Repr

/-- One generation pass of `generateDotpkgStream` after schema and
snapshot resolution: plan the artifacts, run the selective writer, and on
success report `documentCount = Object.keys(cache.cacheItemsMap).length`.
`none` models the failed pass. -/
def generateDotpkgPass (schemaDef : SchemaDef) (targetPath : List String)
    (typeNameField : String) (cache : Cache) (writtenFilesCache : WrittenFilesCache) :
    Option (GenerateInfo × (List (List String × String) × WrittenFilesCache)) :=
  match writeFilesForCachePlan schemaDef targetPath typeNameField cache with
  | none => none
  | some fs =>
      some (GenerateInfo.mk cache.cacheItemsMap.length, runWritesAll writtenFilesCache fs)

/-- The first escaping rule in the words of the spec: if the identifier
begins with a digit, an underscore is prefixed. -/
def prefixIfDigitSpec (s : String) : String :=
  match s.data.head? with
  | some c => if c.isDigit then "_" ++ s else s
  | none => s

/-- The second escaping rule in the words of the spec: every path-separator
character in the identifier is replaced with a double underscore. -/
def replaceSepSpec (s : String) : String :=
  String.mk (s.data.flatMap (fun c => if c = '/' then ['_', '_'] else [c]))

/-- A collection document type named `Post`, used by the concrete examples. -/
def exPostDef : DocumentTypeDef := DocumentTypeDef.mk "Post" false

/-- A one-type schema holding `exPostDef`. -/
def exSchema : SchemaDef := SchemaDef.mk [("Post", exPostDef)]

/-- A document with identifier `a` of type `Post`. -/
def exDocA : Document := [("_id", Json.str "a"), ("type", Json.str "Post")]

/-- A document with identifier `b` of type `Post`. -/
def exDocB : Document := [("_id", Json.str "b"), ("type", Json.str "Post")]

/-- A single-document snapshot whose cache item carries the empty-string
fingerprint. -/
def c1Snapshot : Cache := Cache.mk [("a", CacheItem.mk exDocA "")]

/-- The planned artifacts for `c1Snapshot`. -/
def c1Plan : List PlannedFile :=
  (writeFilesForCachePlan exSchema ["out"] "type" c1Snapshot).getD []

/-- The writes performed by the second of two consecutive passes over
`c1Snapshot`, starting from an empty write-cache. -/
def c1SecondPassWrites : List (List String × String) :=
  (runWritesAll (runWritesAll [] c1Plan).2 c1Plan).1

/-- The snapshot holding documents `b` then `a`, in that iteration order. -/
def c2SnapshotBA : Cache :=
  Cache.mk [("b", CacheItem.mk exDocB "hb"), ("a", CacheItem.mk exDocA "ha")]

/-- The same mapping as `c2SnapshotBA` (same key-item pairs), in the
opposite iteration order. -/
def c2SnapshotAB : Cache :=
  Cache.mk [("a", CacheItem.mk exDocA "ha"), ("b", CacheItem.mk exDocB "hb")]

/-- A document with identifier `a/b` of type `Post`. -/
def c3DocSlash : Document := [("_id", Json.str "a/b"), ("type", Json.str "Post")]

/-- A document with identifier `a__b` of type `Post`. -/
def c3DocUnderscore : Document := [("_id", Json.str "a__b"), ("type", Json.str "Post")]

/-- A snapshot holding the two colliding documents `a/b` and `a__b`. -/
def c3Snapshot : Cache :=
  Cache.mk [("a/b", CacheItem.mk c3DocSlash "h1"), ("a__b", CacheItem.mk c3DocUnderscore "h2")]

/-- A schema holding one singleton type `Settings`. -/
def c4Schema : SchemaDef := SchemaDef.mk [("Settings", DocumentTypeDef.mk "Settings" true)]

/-- A document whose discriminant value `Ghost` matches no type of the
schema it is paired with. -/
def c10Doc : Document := [("_id", Json.str "g1"), ("type", Json.str "Ghost")]

/-- A one-document snapshot around `c10Doc`. -/
def c10Snapshot : Cache := Cache.mk [("g1", CacheItem.mk c10Doc "hg")]

theorem lookup_insertCache_self (c : WrittenFilesCache) (p : List String) (h : String) :
    lookupCache (insertCache c p h) p = some h := by
  induction c with
  | nil => simp [insertCache, lookupCache]
  | cons head rest ih =>
      obtain ⟨q, h'⟩ := head
      by_cases hq : q = p
      · subst hq; simp [insertCache, lookupCache]
      · simp [insertCache, lookupCache, hq, ih]

theorem lookup_insertCache_ne (c : WrittenFilesCache) (p : List String) (h : String)
    (q : List String) (hq : q ≠ p) :
    lookupCache (insertCache c p h) q = lookupCache c q := by
  induction c with
  | nil => simp [insertCache, lookupCache, Ne.symm hq]
  | cons head rest ih =>
      obtain ⟨r, h'⟩ := head
      by_cases hr : r = p
      · subst hr
        simp [insertCache, lookupCache, Ne.symm hq]
      · simp [insertCache, lookupCache, hr, ih]

theorem writeFile_cache_frame (c : WrittenFilesCache) (f : PlannedFile) (ok : Bool)
    (q : List String) (hne : f.filePath ≠ q) :
    lookupCache (writeFileWithWrittenFilesCache c f ok).2 q = lookupCache c q := by
  obtain ⟨fp, ct, dh⟩ := f
  simp only at hne
  cases dh with
  | none => cases ok <;> simp [writeFileWithWrittenFilesCache]
  | some h =>
      by_cases hl : lookupCache c fp = some h
      · simp [writeFileWithWrittenFilesCache, hl]
      · cases ok
        · simp [writeFileWithWrittenFilesCache, hl]
        · by_cases he : h = ""
          · subst he
            simp [writeFileWithWrittenFilesCache, hl]
          · simp [writeFileWithWrittenFilesCache, hl, he,
              lookup_insertCache_ne c fp h q (Ne.symm hne)]

theorem writeFile_no_empty_record (c : WrittenFilesCache) (f : PlannedFile) (ok : Bool)
    (q : List String)
    (hq : lookupCache (writeFileWithWrittenFilesCache c f ok).2 q = some "") :
    lookupCache c q = some "" := by
  obtain ⟨fp, ct, dh⟩ := f
  cases dh with
  | none => cases ok <;> simpa [writeFileWithWrittenFilesCache] using hq
  | some h =>
      by_cases hl : lookupCache c fp = some h
      · simpa [writeFileWithWrittenFilesCache, hl] using hq
      · cases ok
        · simpa [writeFileWithWrittenFilesCache, hl] using hq
        · by_cases he : h = ""
          · subst he
            simpa [writeFileWithWrittenFilesCache, hl] using hq
          · by_cases hqp : q = fp
            · subst hqp
              rw [show (writeFileWithWrittenFilesCache c ⟨q, ct, some h⟩ true).2 =
                  insertCache c q h by simp [writeFileWithWrittenFilesCache, hl, he],
                lookup_insertCache_self] at hq
              exact absurd (Option.some_injective _ hq.symm) fun hcontra => he hcontra.symm
            · rw [show (writeFileWithWrittenFilesCache c ⟨fp, ct, some h⟩ true).2 =
                  insertCache c fp h by simp [writeFileWithWrittenFilesCache, hl, he],
                lookup_insertCache_ne c fp h q hqp] at hq
              exact hq

theorem runWritesAll_none_write_mem (fs : List PlannedFile) (c : WrittenFilesCache)
    (f : PlannedFile) (hmem : f ∈ fs) (hnone : f.documentHash = none) :
    (f.filePath, f.content) ∈ (runWritesAll c fs).1 := by
  induction fs generalizing c with
  | nil => cases hmem
  | cons g gs ih =>
      rcases List.mem_cons.mp hmem with heq | htl
      · subst heq
        have hw : writeFileWithWrittenFilesCache c f true = (WriteOutcome.wrote, c) := by
          obtain ⟨fp, ct, dh⟩ := f
          simp only at hnone
          subst hnone
          simp [writeFileWithWrittenFilesCache]
        simp [runWritesAll, hw]
      · rcases hr : writeFileWithWrittenFilesCache c g true with ⟨o, c'⟩
        cases o
        · simpa [runWritesAll, hr] using ih c' htl
        · simp only [runWritesAll, hr]
          exact List.mem_cons_of_mem _ (ih c' htl)
        · simpa [runWritesAll, hr] using ih c' htl

theorem runWritesAll_other_paths (fs : List PlannedFile) (c : WrittenFilesCache)
    (p : List String) (hall : ∀ f ∈ fs, f.filePath ≠ p) :
    countWrites (runWritesAll c fs).1 p = 0 ∧
      lookupCache (runWritesAll c fs).2 p = lookupCache c p := by
  induction fs generalizing c with
  | nil => simp [runWritesAll, countWrites]
  | cons g gs ih =>
      have hg : g.filePath ≠ p := hall g (List.mem_cons_self g gs)
      have hrest : ∀ f ∈ gs, f.filePath ≠ p := fun f hf => hall f (List.mem_cons_of_mem _ hf)
      rcases hr : writeFileWithWrittenFilesCache c g true with ⟨o, c'⟩
      have hframe : lookupCache c' p = lookupCache c p := by
        have := writeFile_cache_frame c g true p hg
        rwa [hr] at this
      cases o
      · rcases ih c' hrest with ⟨h1, h2⟩
        exact ⟨by simpa [runWritesAll, hr] using h1, by simp [runWritesAll, hr]; rw [h2, hframe]⟩
      · rcases ih c' hrest with ⟨h1, h2⟩
        constructor
        · simp only [runWritesAll, hr, countWrites, List.filter_cons]
          simpa [hg, countWrites] using h1
        · simp only [runWritesAll, hr]
          rw [h2, hframe]
      · rcases ih c' hrest with ⟨h1, h2⟩
        exact ⟨by simpa [runWritesAll, hr] using h1, by simp [runWritesAll, hr]; rw [h2, hframe]⟩

theorem runWritesAll_single_fingerprint (fs : List PlannedFile) (c : WrittenFilesCache)
    (p : List String) (ct : String) (h : String)
    (hfil : fs.filter (fun f => f.filePath = p) = [PlannedFile.mk p ct (some h)]) :
    (lookupCache c p = some h →
        countWrites (runWritesAll c fs).1 p = 0 ∧
          lookupCache (runWritesAll c fs).2 p = some h) ∧
    (lookupCache c p ≠ some h →
        countWrites (runWritesAll c fs).1 p = 1 ∧
          (h ≠ "" → lookupCache (runWritesAll c fs).2 p = some h) ∧
          (h = "" → lookupCache (runWritesAll c fs).2 p = lookupCache c p)) := by
  induction fs generalizing c with
  | nil => simp [List.filter] at hfil
  | cons g gs ih =>
      by_cases hgp : g.filePath = p
      · have hcons : g :: gs.filter (fun f => f.filePath = p) = [PlannedFile.mk p ct (some h)] := by
          simpa [List.filter_cons, hgp] using hfil
        have hg : g = PlannedFile.mk p ct (some h) := (List.cons_eq_cons.mp hcons).1
        have hrest0 : gs.filter (fun f => f.filePath = p) = [] := (List.cons_eq_cons.mp hcons).2
        have hrest : ∀ f ∈ gs, f.filePath ≠ p := by
          intro f hf
          have := List.filter_eq_nil_iff.mp hrest0 f hf
          simpa using this
        subst hg
        constructor
        · intro hl
          have hw : writeFileWithWrittenFilesCache c (PlannedFile.mk p ct (some h)) true =
              (WriteOutcome.skipped, c) := by
            simp [writeFileWithWrittenFilesCache, hl]
          rcases runWritesAll_other_paths gs c p hrest with ⟨h1, h2⟩
          refine ⟨?_, ?_⟩
          · simpa [runWritesAll, hw] using h1
          · simp only [runWritesAll, hw]
            rw [h2, hl]
        · intro hl
          by_cases he : h = ""
          · subst he
            have hw : writeFileWithWrittenFilesCache c (PlannedFile.mk p ct (some "")) true =
                (WriteOutcome.wrote, c) := by
              simp [writeFileWithWrittenFilesCache, hl]
            rcases runWritesAll_other_paths gs c p hrest with ⟨h1, h2⟩
            refine ⟨?_, by simp, fun _ => ?_⟩
            · simp only [runWritesAll, hw, countWrites, List.filter_cons]
              simpa [countWrites] using h1
            · simp only [runWritesAll, hw]
              exact h2
          · have hw : writeFileWithWrittenFilesCache c (PlannedFile.mk p ct (some h)) true =
                (WriteOutcome.wrote, insertCache c p h) := by
              simp [writeFileWithWrittenFilesCache, hl, he]
            rcases runWritesAll_other_paths gs (insertCache c p h) p hrest with ⟨h1, h2⟩
            refine ⟨?_, fun _ => ?_, fun hcontra => absurd hcontra he⟩
            · simp only [runWritesAll, hw, countWrites, List.filter_cons]
              simpa [countWrites] using h1
            · simp only [runWritesAll, hw]
              rw [h2, lookup_insertCache_self]
      · have hrest : gs.filter (fun f => f.filePath = p) = [PlannedFile.mk p ct (some h)] := by
          simpa [List.filter_cons, hgp] using hfil
        rcases hr : writeFileWithWrittenFilesCache c g true with ⟨o, c'⟩
        have hframe : lookupCache c' p = lookupCache c p := by
          have := writeFile_cache_frame c g true p hgp
          rwa [hr] at this
        rcases ih c' hrest with ⟨ihs, ihw⟩
        rw [hframe] at ihs ihw
        cases o
        · exact ⟨fun hl => by simpa [runWritesAll, hr] using ihs hl,
            fun hl => by simpa [runWritesAll, hr] using ihw hl⟩
        · constructor
          · intro hl
            rcases ihs hl with ⟨i1, i2⟩
            refine ⟨?_, by simpa [runWritesAll, hr] using i2⟩
            simp only [runWritesAll, hr, countWrites, List.filter_cons]
            simpa [hgp, countWrites] using i1
          · intro hl
            rcases ihw hl with ⟨i1, i2, i3⟩
            refine ⟨?_, by simpa [runWritesAll, hr] using i2, ?_⟩
            · simp only [runWritesAll, hr, countWrites, List.filter_cons]
              simpa [hgp, countWrites] using i1
            · intro he
              have := i3 he
              simp only [runWritesAll, hr]
              rw [this]
        · exact ⟨fun hl => by simpa [runWritesAll, hr] using ihs hl,
            fun hl => by simpa [runWritesAll, hr] using ihw hl⟩

theorem append_ne_of_length_ne (tp l₁ l₂ : List String) (hne : l₁.length ≠ l₂.length) :
    tp ++ l₁ ≠ tp ++ l₂ := by
  intro heq
  exact hne (by simpa using congrArg List.length heq)

theorem dataBarrelFilePlans_shape (tp : List String) (tnf : String) (docs : List Document)
    (defs : List DocumentTypeDef) (bs : List PlannedFile)
    (hp : dataBarrelFilePlans tp tnf docs defs = some bs) :
    ∀ b ∈ bs, b.documentHash = none ∧ ∃ nm, b.filePath = tp ++ ["data", nm] := by
  induction defs generalizing bs with
  | nil =>
      simp only [dataBarrelFilePlans] at hp
      obtain rfl := Option.some_injective _ hp.symm
      intro b hb; cases hb
  | cons d ds ih =>
      simp only [dataBarrelFilePlans] at hp
      rcases hc : makeDataExportFile d (barrelDocumentIds tnf docs d) with _ | content
      · rw [hc] at hp; cases hp
      · rcases hrest : dataBarrelFilePlans tp tnf docs ds with _ | files
        · rw [hc, hrest] at hp; cases hp
        · rw [hc, hrest] at hp
          obtain rfl := Option.some_injective _ hp.symm
          intro b hb
          rcases List.mem_cons.mp hb with rfl | hb'
          · exact ⟨rfl, getDataVariableName d ++ ".mjs", rfl⟩
          · exact ih files hrest b hb'

theorem dataBarrelFilePlans_mem (tp : List String) (tnf : String) (docs : List Document)
    (defs : List DocumentTypeDef) (bs : List PlannedFile)
    (hp : dataBarrelFilePlans tp tnf docs defs = some bs) :
    ∀ d ∈ defs, ∃ content,
      makeDataExportFile d (barrelDocumentIds tnf docs d) = some content ∧
        PlannedFile.mk (tp ++ ["data", getDataVariableName d ++ ".mjs"]) content none ∈ bs := by
  induction defs generalizing bs with
  | nil => intro d hd; cases hd
  | cons d₀ ds ih =>
      simp only [dataBarrelFilePlans] at hp
      rcases hc : makeDataExportFile d₀ (barrelDocumentIds tnf docs d₀) with _ | content
      · rw [hc] at hp; cases hp
      · rcases hrest : dataBarrelFilePlans tp tnf docs ds with _ | files
        · rw [hc, hrest] at hp; cases hp
        · rw [hc, hrest] at hp
          obtain rfl := Option.some_injective _ hp.symm
          intro d hd
          rcases List.mem_cons.mp hd with rfl | hd'
          · exact ⟨content, hc, List.mem_cons_self _ _⟩
          · obtain ⟨ct, hct, hmem⟩ := ih files hrest d hd'
            exact ⟨ct, hct, List.mem_cons_of_mem _ hmem⟩

theorem dataBarrelFilePlans_fail (tp : List String) (tnf : String) (docs : List Document)
    (defs : List DocumentTypeDef) (d : DocumentTypeDef) (hd : d ∈ defs)
    (hsing : d.isSingleton = true) (hids : barrelDocumentIds tnf docs d = []) :
    dataBarrelFilePlans tp tnf docs defs = none := by
  induction defs with
  | nil => cases hd
  | cons d₀ ds ih =>
      rcases List.mem_cons.mp hd with rfl | hd'
      · have hnone : makeDataExportFile d (barrelDocumentIds tnf docs d) = none := by
          rw [hids]
          simp [makeDataExportFile, hsing]
        simp only [dataBarrelFilePlans, hnone]
      · simp only [dataBarrelFilePlans, ih hd']
        rcases makeDataExportFile d₀ (barrelDocumentIds tnf docs d₀) with _ | content <;> rfl

theorem writeFilesForCachePlan_shape (sd : SchemaDef) (tp : List String) (tnf : String)
    (cache : Cache) (fs : List PlannedFile)
    (hp : writeFilesForCachePlan sd tp tnf cache = some fs) :
    ∃ bs, dataBarrelFilePlans tp tnf (allDocumentsOf cache)
        (sd.documentTypeDefMap.map Prod.snd) = some bs ∧
      fs = PlannedFile.mk (tp ++ ["package.json"]) makePackageJson none ::
        PlannedFile.mk (tp ++ ["types", "index.d.ts"]) (renderTypes sd) none ::
        PlannedFile.mk (tp ++ ["types", "index.mjs"]) makeHelperTypes none ::
        PlannedFile.mk (tp ++ ["data", "index.d.ts"]) (makeDataTypes sd) none ::
        PlannedFile.mk (tp ++ ["data", "index.mjs"]) (makeIndexJs sd) none ::
        (bs ++ dataJsonFilePlans tp tnf (cache.cacheItemsMap.map Prod.snd)) := by
  simp only [writeFilesForCachePlan] at hp
  rcases hbs : dataBarrelFilePlans tp tnf (allDocumentsOf cache)
      (sd.documentTypeDefMap.map Prod.snd) with _ | bs
  · rw [hbs] at hp; cases hp
  · rw [hbs] at hp
    exact ⟨bs, rfl, (Option.some_injective _ hp).symm⟩

theorem writeFilesForCachePlan_fingerprinted (sd : SchemaDef) (tp : List String) (tnf : String)
    (cache : Cache) (fs : List PlannedFile)
    (hp : writeFilesForCachePlan sd tp tnf cache = some fs) :
    fs.filter (fun f => f.documentHash.isSome) =
      dataJsonFilePlans tp tnf (cache.cacheItemsMap.map Prod.snd) := by
  obtain ⟨bs, hbs, rfl⟩ := writeFilesForCachePlan_shape sd tp tnf cache fs hp
  have hbnone : ∀ b ∈ bs, (b.documentHash.isSome : Bool) = false := by
    intro b hb
    rw [(dataBarrelFilePlans_shape tp tnf _ _ bs hbs b hb).1]
    rfl
  have hjson : ∀ f ∈ dataJsonFilePlans tp tnf (cache.cacheItemsMap.map Prod.snd),
      (f.documentHash.isSome : Bool) = true := by
    intro f hf
    obtain ⟨item, _, rfl⟩ := List.mem_map.mp hf
    rfl
  simp only [List.filter_cons, List.filter_append]
  rw [List.filter_eq_nil_iff.mpr (by simpa using hbnone),
    List.filter_eq_self.mpr hjson]
  simp

theorem plan_single_item_filter (sd : SchemaDef) (tp : List String) (tnf k : String)
    (doc : Document) (h : String) (fs : List PlannedFile)
    (hp : writeFilesForCachePlan sd tp tnf (Cache.mk [(k, CacheItem.mk doc h)]) = some fs) :
    fs.filter (fun f => f.filePath =
        tp ++ ["data", docStr doc tnf, idToFileName (docStr doc "_id") ++ ".json"]) =
      [PlannedFile.mk
        (tp ++ ["data", docStr doc tnf, idToFileName (docStr doc "_id") ++ ".json"])
        (jsonStringify (Json.obj doc)) (some h)] := by
  obtain ⟨bs, hbs, rfl⟩ := writeFilesForCachePlan_shape sd tp tnf _ fs hp
  have hne1 : tp ++ ["package.json"] ≠
      tp ++ ["data", docStr doc tnf, idToFileName (docStr doc "_id") ++ ".json"] :=
    append_ne_of_length_ne tp _ _ (by simp)
  have hne2 : tp ++ ["types", "index.d.ts"] ≠
      tp ++ ["data", docStr doc tnf, idToFileName (docStr doc "_id") ++ ".json"] :=
    append_ne_of_length_ne tp _ _ (by simp)
  have hne3 : tp ++ ["types", "index.mjs"] ≠
      tp ++ ["data", docStr doc tnf, idToFileName (docStr doc "_id") ++ ".json"] :=
    append_ne_of_length_ne tp _ _ (by simp)
  have hne4 : tp ++ ["data", "index.d.ts"] ≠
      tp ++ ["data", docStr doc tnf, idToFileName (docStr doc "_id") ++ ".json"] :=
    append_ne_of_length_ne tp _ _ (by simp)
  have hne5 : tp ++ ["data", "index.mjs"] ≠
      tp ++ ["data", docStr doc tnf, idToFileName (docStr doc "_id") ++ ".json"] :=
    append_ne_of_length_ne tp _ _ (by simp)
  have hbne : ∀ b ∈ bs, ¬ (b.filePath =
      tp ++ ["data", docStr doc tnf, idToFileName (docStr doc "_id") ++ ".json"]) := by
    intro b hb
    obtain ⟨_, nm, hnm⟩ := dataBarrelFilePlans_shape tp tnf _ _ bs hbs b hb
    rw [hnm]
    exact append_ne_of_length_ne tp _ _ (by simp)
  simp only [List.filter_cons, List.filter_append]
  rw [List.filter_eq_nil_iff.mpr (by simpa using hbne)]
  simp [dataJsonFilePlans, List.filter_cons, hne1, hne2, hne3, hne4, hne5]

theorem escapeSlashes_ne_nil (c : Char) (cs : List Char) : escapeSlashes (c :: cs) ≠ [] := by
  by_cases hc : c = '/' <;> simp [escapeSlashes, hc]

theorem escapeSlashes_inj (xs : List Char) (ys : List Char)
    (hx : '_' ∉ xs) (hy : '_' ∉ ys) (heq : escapeSlashes xs = escapeSlashes ys) : xs = ys := by
  induction xs generalizing ys with
  | nil =>
      cases ys with
      | nil => rfl
      | cons b bs => exact absurd heq.symm (escapeSlashes_ne_nil b bs)
  | cons a as ih =>
      cases ys with
      | nil => exact absurd heq (escapeSlashes_ne_nil a as)
      | cons b bs =>
          have hxa : a ≠ '_' := fun hc => hx (hc ▸ List.mem_cons_self a as)
          have hyb : b ≠ '_' := fun hc => hy (hc ▸ List.mem_cons_self b bs)
          have hxs : '_' ∉ as := fun hc => hx (List.mem_cons_of_mem a hc)
          have hys : '_' ∉ bs := fun hc => hy (List.mem_cons_of_mem b hc)
          by_cases ha : a = '/' <;> by_cases hb : b = '/'
          · subst ha; subst hb
            simp only [escapeSlashes, if_pos] at heq
            simp only [List.cons.injEq, true_and] at heq
            exact congrArg _ (ih bs hxs hys heq)
          · subst ha
            simp [escapeSlashes, hb] at heq
            exact absurd heq.1.symm hyb
          · subst hb
            simp [escapeSlashes, ha] at heq
            exact absurd heq.1 hxa
          · simp only [escapeSlashes, if_neg ha, if_neg hb, List.cons.injEq] at heq
            rw [heq.1]
            exact congrArg _ (ih bs hxs hys heq.2)

theorem escapeSlashes_eq_flatMap (l : List Char) :
    escapeSlashes l = l.flatMap (fun c => if c = '/' then ['_', '_'] else [c]) := by
  induction l with
  | nil => rfl
  | cons c cs ih =>
      by_cases hc : c = '/' <;> simp [escapeSlashes, hc, ih]

/-- C5: an artifact handed to `writeFileWithWrittenFilesCache` with no
fingerprint is written unconditionally and leaves the write-cache
untouched; every such planned artifact (and the manifest, the type
declarations, the helper re-export, the aggregate declarations, the
aggregate index and every per-type barrel is such an artifact) therefore
has its write performed on every pass, whatever the cache holds. -/
theorem claim5_unfingerprinted_always_written :
    (∀ (c : WrittenFilesCache) (p : List String) (ct : String),
        writeFileWithWrittenFilesCache c (PlannedFile.mk p ct none) true =
          (WriteOutcome.wrote, c)) ∧
    (∀ (fs : List PlannedFile) (c : WrittenFilesCache) (f : PlannedFile),
        f ∈ fs → f.documentHash = none →
          (f.filePath, f.content) ∈ (runWritesAll c fs).1) ∧
    (∀ (sd : SchemaDef) (tp : List String) (tnf : String) (cache : Cache)
        (fs : List PlannedFile),
        writeFilesForCachePlan sd tp tnf cache = some fs →
          (PlannedFile.mk (tp ++ ["package.json"]) makePackageJson none ∈ fs ∧
            PlannedFile.mk (tp ++ ["types", "index.d.ts"]) (renderTypes sd) none ∈ fs ∧
            PlannedFile.mk (tp ++ ["types", "index.mjs"]) makeHelperTypes none ∈ fs ∧
            PlannedFile.mk (tp ++ ["data", "index.d.ts"]) (makeDataTypes sd) none ∈ fs ∧
            PlannedFile.mk (tp ++ ["data", "index.mjs"]) (makeIndexJs sd) none ∈ fs) ∧
          ∀ d ∈ sd.documentTypeDefMap.map Prod.snd, ∃ content,
            PlannedFile.mk (tp ++ ["data", getDataVariableName d ++ ".mjs"]) content none ∈ fs) := by
  refine ⟨?_, runWritesAll_none_write_mem, ?_⟩
  · intro c p ct
    simp [writeFileWithWrittenFilesCache]
  · intro sd tp tnf cache fs hp
    obtain ⟨bs, hbs, rfl⟩ := writeFilesForCachePlan_shape sd tp tnf cache fs hp
    refine ⟨⟨by simp, by simp, by simp, by simp, by simp⟩, ?_⟩
    intro d hd
    obtain ⟨content, _, hmem⟩ := dataBarrelFilePlans_mem tp tnf _ _ bs hbs d hd
    exact ⟨content, by simp [hmem]⟩

theorem claim5_unfingerprinted_always_written_check :
    (writeFileWithWrittenFilesCache [(["p"], "old")] (PlannedFile.mk ["p"] "x" none) true =
      (WriteOutcome.wrote, [(["p"], "old")])) ∧
    ((["p"], "x") ∈ (runWritesAll [] [PlannedFile.mk ["p"] "x" none]).1) ∧
    (PlannedFile.mk (["out"] ++ ["data", "index.mjs"]) (makeIndexJs exSchema) none ∈ c1Plan) :=
  ⟨claim5_unfingerprinted_always_written.1 [(["p"], "old")] ["p"] "x",
    claim5_unfingerprinted_always_written.2.1 [PlannedFile.mk ["p"] "x" none] []
      (PlannedFile.mk ["p"] "x" none) (List.mem_singleton.mpr rfl) rfl,
    ((claim5_unfingerprinted_always_written.2.2 exSchema ["out"] "type" c1Snapshot c1Plan
      rfl).1).2.2.2.2⟩

/-- C6: a fingerprinted write that is attempted and fails leaves the
write-cache entry for that path unchanged (the recording step runs only
after the write completes), and a later retry of the same write is
performed; after a successful write of a non-empty fingerprint the cache
holds that fingerprint under the path. -/
theorem claim6_record_only_after_success :
    (∀ (c : WrittenFilesCache) (f : PlannedFile),
        (writeFileWithWrittenFilesCache c f false).2 = c) ∧
    (∀ (c : WrittenFilesCache) (p : List String) (ct h : String),
        lookupCache c p ≠ some h →
          writeFileWithWrittenFilesCache c (PlannedFile.mk p ct (some h)) false =
            (WriteOutcome.failed, c) ∧
          (writeFileWithWrittenFilesCache c (PlannedFile.mk p ct (some h)) true).1 =
            WriteOutcome.wrote ∧
          (h ≠ "" → lookupCache
            (writeFileWithWrittenFilesCache c (PlannedFile.mk p ct (some h)) true).2 p =
              some h)) := by
  constructor
  · intro c f
    obtain ⟨fp, ct, dh⟩ := f
    cases dh with
    | none => simp [writeFileWithWrittenFilesCache]
    | some h =>
        by_cases hl : lookupCache c fp = some h <;>
          simp [writeFileWithWrittenFilesCache, hl]
  · intro c p ct h hl
    refine ⟨by simp [writeFileWithWrittenFilesCache, hl], ?_, ?_⟩
    · rcases eq_or_ne h "" with rfl | he
      · simp [writeFileWithWrittenFilesCache, hl]
      · simp [writeFileWithWrittenFilesCache, hl, he]
    · intro he
      simp [writeFileWithWrittenFilesCache, hl, he, lookup_insertCache_self]

theorem claim6_record_only_after_success_check :
    ((writeFileWithWrittenFilesCache [] (PlannedFile.mk ["f"] "x" (some "h1")) false).2 = []) ∧
    (writeFileWithWrittenFilesCache [] (PlannedFile.mk ["f"] "x" (some "h1")) false =
      (WriteOutcome.failed, [])) ∧
    (lookupCache
      (writeFileWithWrittenFilesCache [] (PlannedFile.mk ["f"] "x" (some "h1")) true).2 ["f"] =
        some "h1") :=
  ⟨claim6_record_only_after_success.1 [] (PlannedFile.mk ["f"] "x" (some "h1")),
    (claim6_record_only_after_success.2 [] ["f"] "x" "h1" (by decide)).1,
    (claim6_record_only_after_success.2 [] ["f"] "x" "h1" (by decide)).2.2 (by decide)⟩

/-- C9: an empty-string fingerprint passes the `!== undefined` skip check
but fails the truthiness recording test, so `writeFileWithWrittenFilesCache`
never stores an empty-string entry, and on any cache free of empty-string
entries a call carrying the empty-string fingerprint performs the write and
leaves the cache unchanged. -/
theorem claim9_empty_fingerprint :
    (∀ (c : WrittenFilesCache) (f : PlannedFile) (ok : Bool) (q : List String),
        lookupCache (writeFileWithWrittenFilesCache c f ok).2 q = some "" →
          lookupCache c q = some "") ∧
    (∀ (c : WrittenFilesCache) (p : List String) (ct : String),
        lookupCache c p ≠ some "" →
          writeFileWithWrittenFilesCache c (PlannedFile.mk p ct (some "")) true =
            (WriteOutcome.wrote, c)) := by
  refine ⟨writeFile_no_empty_record, ?_⟩
  intro c p ct hl
  simp [writeFileWithWrittenFilesCache, hl]

theorem claim9_empty_fingerprint_check :
    (lookupCache [(["q"], "")] ["q"] = some "") ∧
    (writeFileWithWrittenFilesCache [(["p"], "h")] (PlannedFile.mk ["p"] "x" (some "")) true =
      (WriteOutcome.wrote, [(["p"], "h")])) :=
  ⟨claim9_empty_fingerprint.1 [(["q"], "")] (PlannedFile.mk ["z"] "y" none) true ["q"]
      (by decide),
    claim9_empty_fingerprint.2 [(["p"], "h")] ["p"] "x" (by decide)⟩

/-- C7: the per-document data file name applies the two escaping rules in
order — first the underscore prefix for identifiers beginning with a
digit, then the replacement of every path separator by a double
underscore — and the identifier `2024/b` yields `_2024__b`. -/
theorem claim7_idToFileName_rules :
    (∀ id : String, idToFileName id = replaceSepSpec (prefixIfDigitSpec id)) ∧
    idToFileName "2024/b" = "_2024__b" ∧ idToFileName "a" = "a" := by
  refine ⟨?_, by decide, by decide⟩
  intro id
  obtain ⟨l⟩ := id
  cases l with
  | nil => rfl
  | cons c cs =>
      by_cases hc : c.isDigit
      · show String.mk (escapeSlashes (leftPadChars (c :: cs))) = _
        rw [show leftPadChars (c :: cs) = '_' :: c :: cs by simp [leftPadChars, hc]]
        have hpre : prefixIfDigitSpec (String.mk (c :: cs)) = String.mk ('_' :: c :: cs) := by
          show (if c.isDigit then "_" ++ String.mk (c :: cs) else String.mk (c :: cs)) = _
          rw [if_pos hc]
          rfl
        rw [hpre]
        show _ = String.mk (('_' :: c :: cs).flatMap _)
        rw [escapeSlashes_eq_flatMap]
      · show String.mk (escapeSlashes (leftPadChars (c :: cs))) = _
        rw [show leftPadChars (c :: cs) = c :: cs by simp [leftPadChars, hc]]
        have hpre : prefixIfDigitSpec (String.mk (c :: cs)) = String.mk (c :: cs) := by
          show (if c.isDigit then "_" ++ String.mk (c :: cs) else String.mk (c :: cs)) = _
          rw [if_neg hc]
        rw [hpre]
        show _ = String.mk ((c :: cs).flatMap _)
        rw [escapeSlashes_eq_flatMap]

/-- C4: a schema containing a singleton type with zero matching documents
makes the planning step of the pass fail (the `documentIds[0]!` access
throws before any artifact is handed to the writer), so the pass reports
failure instead of emitting a barrel that references a missing data
file. -/
theorem claim4_singleton_zero_documents_fails :
    ∀ (sd : SchemaDef) (tp : List String) (tnf : String) (cache : Cache)
      (wfc : WrittenFilesCache) (d : DocumentTypeDef),
      d ∈ sd.documentTypeDefMap.map Prod.snd → d.isSingleton = true →
      barrelDocumentIds tnf (allDocumentsOf cache) d = [] →
        writeFilesForCachePlan sd tp tnf cache = none ∧
        generateDotpkgPass sd tp tnf cache wfc = none := by
  intro sd tp tnf cache wfc d hd hsing hids
  have hplan : writeFilesForCachePlan sd tp tnf cache = none := by
    simp only [writeFilesForCachePlan]
    rw [dataBarrelFilePlans_fail tp tnf (allDocumentsOf cache) _ d hd hsing hids]
  exact ⟨hplan, by simp [generateDotpkgPass, hplan]⟩

theorem claim4_singleton_zero_documents_fails_check :
    writeFilesForCachePlan c4Schema ["out"] "type" (Cache.mk []) = none ∧
    generateDotpkgPass c4Schema ["out"] "type" (Cache.mk []) [] = none :=
  claim4_singleton_zero_documents_fails c4Schema ["out"] "type" (Cache.mk []) []
    (DocumentTypeDef.mk "Settings" true) (by decide) rfl rfl

/-- C8: a successful pass reports a `documentCount` equal to the number of
cache items of the snapshot, which also equals the number of fingerprinted
(per-document JSON) artifacts of the plan. -/
theorem claim8_documentCount :
    ∀ (sd : SchemaDef) (tp : List String) (tnf : String) (cache : Cache)
      (wfc : WrittenFilesCache) (info : GenerateInfo)
      (rest : List (List String × String) × WrittenFilesCache),
      generateDotpkgPass sd tp tnf cache wfc = some (info, rest) →
        info.documentCount = cache.cacheItemsMap.length ∧
        ∃ fs, writeFilesForCachePlan sd tp tnf cache = some fs ∧
          (fs.filter (fun f => f.documentHash.isSome)).length =
            cache.cacheItemsMap.length := by
  intro sd tp tnf cache wfc info rest hp
  simp only [generateDotpkgPass] at hp
  rcases hplan : writeFilesForCachePlan sd tp tnf cache with _ | fs
  · rw [hplan] at hp; cases hp
  · rw [hplan] at hp
    have heq := Option.some_injective _ hp
    have h1 : GenerateInfo.mk cache.cacheItemsMap.length = info := congrArg Prod.fst heq
    refine ⟨?_, fs, rfl, ?_⟩
    · rw [← h1]
    · rw [writeFilesForCachePlan_fingerprinted sd tp tnf cache fs hplan]
      simp [dataJsonFilePlans]

theorem claim8_documentCount_check :
    (GenerateInfo.mk c2SnapshotAB.cacheItemsMap.length).documentCount =
      c2SnapshotAB.cacheItemsMap.length ∧
    ∃ fs, writeFilesForCachePlan exSchema ["out"] "type" c2SnapshotAB = some fs ∧
      (fs.filter (fun f => f.documentHash.isSome)).length =
        c2SnapshotAB.cacheItemsMap.length :=
  claim8_documentCount exSchema ["out"] "type" c2SnapshotAB []
    (GenerateInfo.mk c2SnapshotAB.cacheItemsMap.length)
    (runWritesAll [] ((writeFilesForCachePlan exSchema ["out"] "type" c2SnapshotAB).getD []))
    rfl

/-- C10: the fingerprinted artifacts of a successful plan are exactly one
JSON data file per cache item, in snapshot order, at
`data/<discriminant value>/<escaped id>.json` with the pretty-printed
document as content — with no check that the discriminant value names a
type of the schema. -/
theorem claim10_json_files_per_item :
    ∀ (sd : SchemaDef) (tp : List String) (tnf : String) (cache : Cache)
      (fs : List PlannedFile),
      writeFilesForCachePlan sd tp tnf cache = some fs →
        fs.filter (fun f => f.documentHash.isSome) =
          (cache.cacheItemsMap.map Prod.snd).map (fun item =>
            PlannedFile.mk
              (tp ++ ["data", docStr item.document tnf,
                idToFileName (docStr item.document "_id") ++ ".json"])
              (jsonStringify (Json.obj item.document))
              (some item.documentHash)) := by
  intro sd tp tnf cache fs hp
  rw [writeFilesForCachePlan_fingerprinted sd tp tnf cache fs hp]
  rfl

theorem claim10_json_files_per_item_check :
    ((writeFilesForCachePlan (SchemaDef.mk []) ["out"] "type" c10Snapshot).getD []).filter
        (fun f => f.documentHash.isSome) =
      (c10Snapshot.cacheItemsMap.map Prod.snd).map (fun item =>
        PlannedFile.mk
          (["out"] ++ ["data", docStr item.document "type",
            idToFileName (docStr item.document "_id") ++ ".json"])
          (jsonStringify (Json.obj item.document))
          (some item.documentHash)) :=
  claim10_json_files_per_item (SchemaDef.mk []) ["out"] "type" c10Snapshot _ rfl

set_option maxRecDepth 8192 in
/-- C2 counterexample: the planner sorts nothing — two snapshots holding
the same identifier-to-item mapping in different iteration orders plan
different artifact sets, the barrel identifier list follows iteration
order `[b, a]`, and that order is not lexicographic since `a < b`. -/
theorem claim2_counterexample :
    writeFilesForCachePlan exSchema ["out"] "type" c2SnapshotBA ≠
      writeFilesForCachePlan exSchema ["out"] "type" c2SnapshotAB ∧
    barrelDocumentIds "type" (allDocumentsOf c2SnapshotBA) exPostDef = ["b", "a"] ∧
    makeDataExportFile exPostDef ["b", "a"] ≠ makeDataExportFile exPostDef ["a", "b"] ∧
    ('a' : Char) < 'b' := by
  refine ⟨by decide, by decide, by decide, by decide⟩

/-- C2 (amended): the planned artifact set is deterministic in the
snapshot as an ordered mapping, and each type's barrel is planned from the
matching identifiers in snapshot iteration order (not sorted). -/
theorem claim2_barrel_iteration_order :
    ∀ (sd : SchemaDef) (tp : List String) (tnf : String) (cache : Cache)
      (fs : List PlannedFile) (d : DocumentTypeDef),
      writeFilesForCachePlan sd tp tnf cache = some fs →
      d ∈ sd.documentTypeDefMap.map Prod.snd →
        ∃ content,
          makeDataExportFile d (barrelDocumentIds tnf (allDocumentsOf cache) d) =
            some content ∧
          PlannedFile.mk (tp ++ ["data", getDataVariableName d ++ ".mjs"]) content none ∈
            fs := by
  intro sd tp tnf cache fs d hp hd
  obtain ⟨bs, hbs, rfl⟩ := writeFilesForCachePlan_shape sd tp tnf cache fs hp
  obtain ⟨content, hct, hmem⟩ := dataBarrelFilePlans_mem tp tnf _ _ bs hbs d hd
  exact ⟨content, hct, by simp [hmem]⟩

theorem claim2_barrel_iteration_order_check :
    ∃ content,
      makeDataExportFile exPostDef
          (barrelDocumentIds "type" (allDocumentsOf c2SnapshotBA) exPostDef) =
        some content ∧
      PlannedFile.mk (["out"] ++ ["data", getDataVariableName exPostDef ++ ".mjs"])
          content none ∈
        (writeFilesForCachePlan exSchema ["out"] "type" c2SnapshotBA).getD [] :=
  claim2_barrel_iteration_order exSchema ["out"] "type" c2SnapshotBA _ exPostDef rfl
    (by decide)

set_option maxRecDepth 8192 in
/-- C3 counterexample: `idToFileName` is not injective — the distinct
identifiers `a/b` and `a__b` map to the same escaped filename — and the
planner raises no error for the colliding pair: the plan succeeds and
holds two artifacts at the same output path. -/
theorem claim3_counterexample :
    idToFileName "a/b" = idToFileName "a__b" ∧ ("a/b" : String) ≠ "a__b" ∧
    (writeFilesForCachePlan exSchema ["out"] "type" c3Snapshot).isSome = true ∧
    (((writeFilesForCachePlan exSchema ["out"] "type" c3Snapshot).getD []).filter
        (fun f => f.filePath = ["out", "data", "Post", "a__b.json"])).length = 2 := by
  refine ⟨by decide, by decide, by decide, by decide⟩

theorem slash_not_digit (c : Char) (hc : c.isDigit = true) : c ≠ '/' := by
  intro h
  subst h
  cases hc

/-- C3 (amended): `idToFileName` is injective over identifiers containing
no underscore; on arbitrary identifiers it can collide (see the
counterexample), and a colliding pair is not flagged — the two documents
are planned at the same output path. -/
theorem claim3_idToFileName_partial_injective :
    ∀ (s t : String), '_' ∉ s.data → '_' ∉ t.data →
      idToFileName s = idToFileName t → s = t := by
  intro s t hs ht heq
  obtain ⟨ls⟩ := s
  obtain ⟨lt⟩ := t
  have hs' : '_' ∉ ls := hs
  have ht' : '_' ∉ lt := ht
  have heq' : escapeSlashes (leftPadChars ls) = escapeSlashes (leftPadChars lt) := by
    simpa [idToFileName] using congrArg String.data heq
  clear hs ht heq
  cases ls with
  | nil =>
      cases lt with
      | nil => rfl
      | cons b bs =>
          exfalso
          obtain ⟨c, cs, hcc⟩ : ∃ c cs, leftPadChars (b :: bs) = c :: cs := by
            by_cases hb : b.isDigit
            · exact ⟨'_', b :: bs, by simp [leftPadChars, hb]⟩
            · exact ⟨b, bs, by simp [leftPadChars, hb]⟩
          rw [hcc] at heq'
          exact escapeSlashes_ne_nil c cs heq'.symm
  | cons a as =>
      cases lt with
      | nil =>
          exfalso
          obtain ⟨c, cs, hcc⟩ : ∃ c cs, leftPadChars (a :: as) = c :: cs := by
            by_cases ha : a.isDigit
            · exact ⟨'_', a :: as, by simp [leftPadChars, ha]⟩
            · exact ⟨a, as, by simp [leftPadChars, ha]⟩
          rw [hcc] at heq'
          exact escapeSlashes_ne_nil c cs heq'
      | cons b bs =>
          have hxa : a ≠ '_' := fun hc => hs' (hc ▸ List.mem_cons_self a as)
          have hyb : b ≠ '_' := fun hc => ht' (hc ▸ List.mem_cons_self b bs)
          by_cases hda : a.isDigit <;> by_cases hdb : b.isDigit
          · rw [show leftPadChars (a :: as) = '_' :: a :: as by simp [leftPadChars, hda],
              show leftPadChars (b :: bs) = '_' :: b :: bs by simp [leftPadChars, hdb]] at heq'
            simp only [escapeSlashes, if_neg (by decide : ¬('_' : Char) = '/'),
              List.cons.injEq, true_and] at heq'
            exact congrArg String.mk (escapeSlashes_inj (a :: as) (b :: bs) hs' ht' heq')
          · exfalso
            rw [show leftPadChars (a :: as) = '_' :: a :: as by simp [leftPadChars, hda],
              show leftPadChars (b :: bs) = b :: bs by simp [leftPadChars, hdb]] at heq'
            simp only [escapeSlashes, if_neg (by decide : ¬('_' : Char) = '/'),
              if_neg (slash_not_digit a hda)] at heq'
            by_cases hbs : b = '/'
            · subst hbs
              simp only [escapeSlashes, if_pos rfl, if_true, List.cons.injEq, true_and] at heq'
              exact hxa heq'.1
            · simp only [escapeSlashes, if_neg hbs, List.cons.injEq] at heq'
              exact hyb heq'.1.symm
          · exfalso
            rw [show leftPadChars (a :: as) = a :: as by simp [leftPadChars, hda],
              show leftPadChars (b :: bs) = '_' :: b :: bs by simp [leftPadChars, hdb]] at heq'
            simp only [escapeSlashes, if_neg (by decide : ¬('_' : Char) = '/'),
              if_neg (slash_not_digit b hdb)] at heq'
            by_cases has : a = '/'
            · subst has
              simp only [escapeSlashes, if_pos rfl, if_true, List.cons.injEq, true_and] at heq'
              exact hyb heq'.1.symm
            · simp only [escapeSlashes, if_neg has, List.cons.injEq] at heq'
              exact hxa heq'.1
          · rw [show leftPadChars (a :: as) = a :: as by simp [leftPadChars, hda],
              show leftPadChars (b :: bs) = b :: bs by simp [leftPadChars, hdb]] at heq'
            exact congrArg String.mk (escapeSlashes_inj (a :: as) (b :: bs) hs' ht' heq')

theorem claim3_idToFileName_partial_injective_check :
    '_' ∉ ("ab/c" : String).data ∧ idToFileName "ab/c" = idToFileName "ab/c" ∧
      ("ab/c" : String) = "ab/c" :=
  ⟨by decide, rfl,
    claim3_idToFileName_partial_injective "ab/c" "ab/c" (by decide) (by decide) rfl⟩

/-- C1 counterexample: over two consecutive passes on a one-document
snapshot whose supplied fingerprint is the empty string and does not
change, the second pass still performs one write (not zero) for that
document's data file, because the empty-string fingerprint is never
recorded in the write-cache. -/
theorem claim1_counterexample :
    c1Snapshot.cacheItemsMap = [("a", CacheItem.mk exDocA "")] ∧
    countWrites c1SecondPassWrites ["out", "data", "Post", "a.json"] = 1 ∧
    countWrites c1SecondPassWrites ["out", "data", "Post", "a.json"] ≠ 0 := by
  refine ⟨rfl, by decide, by decide⟩

/-- C1 (amended): for a supplied fingerprint, a call skips exactly when the
cache holds that fingerprint for the path and otherwise performs one write;
and for a non-empty fingerprint, across two consecutive passes over the
same one-document snapshot the second pass performs zero writes for the
document's data file when the fingerprint is unchanged, and exactly one
write when it changed. -/
theorem claim1_selective_write :
    (∀ (c : WrittenFilesCache) (p : List String) (ct h : String),
        lookupCache c p = some h →
          writeFileWithWrittenFilesCache c (PlannedFile.mk p ct (some h)) true =
            (WriteOutcome.skipped, c)) ∧
    (∀ (c : WrittenFilesCache) (p : List String) (ct h : String),
        lookupCache c p ≠ some h →
          (writeFileWithWrittenFilesCache c (PlannedFile.mk p ct (some h)) true).1 =
            WriteOutcome.wrote) ∧
    (∀ (sd : SchemaDef) (tp : List String) (tnf k : String) (doc : Document)
        (h h₂ : String) (wfc : WrittenFilesCache) (fs fs₂ : List PlannedFile),
        h ≠ "" →
        writeFilesForCachePlan sd tp tnf (Cache.mk [(k, CacheItem.mk doc h)]) = some fs →
        writeFilesForCachePlan sd tp tnf (Cache.mk [(k, CacheItem.mk doc h₂)]) = some fs₂ →
          countWrites (runWritesAll (runWritesAll wfc fs).2 fs).1
            (tp ++ ["data", docStr doc tnf, idToFileName (docStr doc "_id") ++ ".json"]) =
              0 ∧
          (h₂ ≠ h →
            countWrites (runWritesAll (runWritesAll wfc fs).2 fs₂).1
              (tp ++ ["data", docStr doc tnf,
                idToFileName (docStr doc "_id") ++ ".json"]) = 1)) := by
  refine ⟨?_, ?_, ?_⟩
  · intro c p ct h hl
    simp [writeFileWithWrittenFilesCache, hl]
  · intro c p ct h hl
    rcases eq_or_ne h "" with rfl | he
    · simp [writeFileWithWrittenFilesCache, hl]
    · simp [writeFileWithWrittenFilesCache, hl, he]
  · intro sd tp tnf k doc h h₂ wfc fs fs₂ hne hp hp₂
    have hfil := plan_single_item_filter sd tp tnf k doc h fs hp
    have hfil₂ := plan_single_item_filter sd tp tnf k doc h₂ fs₂ hp₂
    have hL := runWritesAll_single_fingerprint fs wfc
      (tp ++ ["data", docStr doc tnf, idToFileName (docStr doc "_id") ++ ".json"])
      (jsonStringify (Json.obj doc)) h hfil
    have hafter : lookupCache (runWritesAll wfc fs).2
        (tp ++ ["data", docStr doc tnf, idToFileName (docStr doc "_id") ++ ".json"]) =
          some h := by
      by_cases hw : lookupCache wfc
          (tp ++ ["data", docStr doc tnf, idToFileName (docStr doc "_id") ++ ".json"]) =
            some h
      · exact (hL.1 hw).2
      · exact (hL.2 hw).2.1 hne
    constructor
    · have hL2 := runWritesAll_single_fingerprint fs (runWritesAll wfc fs).2
        (tp ++ ["data", docStr doc tnf, idToFileName (docStr doc "_id") ++ ".json"])
        (jsonStringify (Json.obj doc)) h hfil
      exact (hL2.1 hafter).1
    · intro hneq
      have hL2 := runWritesAll_single_fingerprint fs₂ (runWritesAll wfc fs).2
        (tp ++ ["data", docStr doc tnf, idToFileName (docStr doc "_id") ++ ".json"])
        (jsonStringify (Json.obj doc)) h₂ hfil₂
      have hnot : lookupCache (runWritesAll wfc fs).2
          (tp ++ ["data", docStr doc tnf, idToFileName (docStr doc "_id") ++ ".json"]) ≠
            some h₂ := by
        rw [hafter]
        intro hcon
        exact hneq (Option.some_injective _ hcon).symm
      exact (hL2.2 hnot).1

theorem claim1_selective_write_check :
    (writeFileWithWrittenFilesCache [(["f"], "h1")] (PlannedFile.mk ["f"] "x" (some "h1"))
        true = (WriteOutcome.skipped, [(["f"], "h1")])) ∧
    ((writeFileWithWrittenFilesCache [] (PlannedFile.mk ["f"] "x" (some "h1")) true).1 =
      WriteOutcome.wrote) ∧
    (countWrites (runWritesAll (runWritesAll []
          ((writeFilesForCachePlan exSchema ["out"] "type"
            (Cache.mk [("a", CacheItem.mk exDocA "ha")])).getD [])).2
        ((writeFilesForCachePlan exSchema ["out"] "type"
          (Cache.mk [("a", CacheItem.mk exDocA "ha")])).getD [])).1
      (["out"] ++ ["data", docStr exDocA "type",
        idToFileName (docStr exDocA "_id") ++ ".json"]) = 0) :=
  ⟨claim1_selective_write.1 [(["f"], "h1")] ["f"] "x" "h1" (by decide),
    claim1_selective_write.2.1 [] ["f"] "x" "h1" (by decide),
    (claim1_selective_write.2.2 exSchema ["out"] "type" "a" exDocA "ha" "ha2" []
      ((writeFilesForCachePlan exSchema ["out"] "type"
        (Cache.mk [("a", CacheItem.mk exDocA "ha")])).getD [])
      ((writeFilesForCachePlan exSchema ["out"] "type"
        (Cache.mk [("a", CacheItem.mk exDocA "ha2")])).getD [])
      (by decide) rfl rfl).1⟩
